import Mathlib

/-!
Shallow embedding of the `fin` fish-plugin manager core
(`src/core.rs`, `src/lock.rs`) and proofs about its claims.

Conventions of the embedding:
* `HashSet<String>` / `HashMap<String, Vec<PathBuf>>` are modelled as
  duplicate-free association lists with set semantics for membership.
* Filesystem effects are explicit: the set of existing files is a
  `List String` threaded through the operations; fetch and file-copy
  results are supplied by oracles (`InstallEnv`).
* `anyhow::Result` is modelled by `Option` / `Except` and by explicit
  `ok : Bool` fields on operation results.
-/

namespace FinSpec

/-- `Plugin` record, lock.rs lines 5-14. `installed_files` is an optional
set of destination paths; modelled as a list. -/
structure Plugin where
  name : String
  source : String
  commit_hash : Option String
  branch : Option String
  installed_files : Option (List String)
  checksum : Option String
deriving DecidableEq, Repr

/-- `Default` derive for `Plugin` (lock.rs line 5): all fields empty. -/
def Plugin.defaultVal : Plugin :=
  { name := "", source := "", commit_hash := none, branch := none,
    installed_files := none, checksum := none }

/-- `impl PartialEq for Plugin` (lock.rs lines 16-20): equality compares
only `name` and `commit_hash`. -/
def pluginEq (a b : Plugin) : Bool :=
  a.name == b.name && a.commit_hash == b.commit_hash

/-- `impl Hash for Plugin` (lock.rs lines 22-26): only `name` is fed to
the hasher; we model the data the hasher sees. -/
def pluginHashKey (p : Plugin) : String :=
  p.name

/-- Rust's `str::split(sep)` on a character pattern, on the character
list of the string: every occurrence of `sep` separates two items, so
the empty string yields `[[]]` and a trailing separator yields a
trailing empty item. -/
def splitChars (sep : Char) : List Char → List (List Char)
  | [] => [[]]
  | c :: cs =>
    if c = sep then [] :: splitChars sep cs
    else
      match splitChars sep cs with
      | [] => [[c]]
      | g :: gs => (c :: g) :: gs

/-- Rust's `str::split(sep).collect::<Vec<&str>>()`. -/
def rsSplit (sep : Char) (s : String) : List String :=
  (splitChars sep s.data).map (fun cs => String.mk cs)

/-- `parse_plugin`'s body for one string (core.rs lines 267-282):
split on `'@'`, take the part before the first `'@'` as the repo, the
part after it (default `"HEAD"`) as the ref, take the last
`'/'`-segment of the repo as the name, and build the GitHub archive
URL. `Iterator::last` on `str::split` is `None` exactly when the split
produced no items, which for `str::split` never happens; the `None`
branch models the `.context("Repo Name invalid")?` error path. -/
def parsePluginOne (s : String) : Option Plugin :=
  match rsSplit '@' s with
  | [] => none
  | repo :: rest =>
    let refName := match rest with
      | [] => "HEAD"
      | r :: _ => r
    match (rsSplit '/' repo).getLast? with
    | none => none
    | some repoName =>
      some { name := repoName,
             source := "https://github.com/" ++ repo ++ "/archive/" ++ refName ++ ".tar.gz",
             commit_hash := none, branch := none,
             installed_files := none, checksum := none }

/-- `parse_plugin` (core.rs lines 265-286): parse each spec string in
order; the first failure aborts the whole parse (the `?` in the loop). -/
def parse_plugin : List String → Option (List Plugin)
  | [] => some []
  | s :: rest =>
    match parsePluginOne s with
    | none => none
    | some p =>
      match parse_plugin rest with
      | none => none
      | some ps => some (p :: ps)

/-- `LockFile` (lock.rs lines 72-77). `DateTime<Utc>` is abstracted to a
`Nat` timestamp; the `HashSet<Plugin>` is modelled as a list, since
`Fin::install` appends to it (`push`) and diffing treats it as a set. -/
structure LockFile where
  version : String
  generated_at : Nat
  plugins : List Plugin
deriving DecidableEq, Repr

/-- The fresh lock state built by `LockFile::load` on a read failure
(lock.rs lines 88-92). -/
def freshLock (now : Nat) : LockFile :=
  { version := "1.0", generated_at := now, plugins := [] }

/-- Why `fs::read_to_string` can fail: the file is missing, or it is
present but unreadable. `LockFile::load` does not distinguish these. -/
inductive ReadErr where
  | notFound
  | permissionDenied
deriving DecidableEq, Repr

/-- `LockFile::load` (lock.rs lines 80-93). `parseToml` stands for
`toml::from_str` (external crate), `readResult` for the outcome of
`fs::read_to_string path`, `now` for `Utc::now()`. If the read
succeeded the content must parse (a parse failure is an error); any
read failure falls through to the fresh default state. -/
def LockFile.load (parseToml : String → Option LockFile) (now : Nat)
    (readResult : Except ReadErr String) : Except Unit LockFile :=
  match readResult with
  | .ok content =>
    match parseToml content with
    | some lock => .ok lock
    | none => .error ()
  | .error _ => .ok (freshLock now)

/-- Membership-conditional insert: `HashSet<String>::insert`. The set is
modelled as a duplicate-free list. -/
def insertSet (s : List String) (x : String) : List String :=
  if s.contains x then s else s ++ [x]

/-- `HashSet<String>::remove`: drop the element. -/
def eraseSet (s : List String) (x : String) : List String :=
  s.filter (fun y => y != x)

/-- `HashMap::get` on the name-to-files map. -/
def lookupMap (m : List (String × List String)) (k : String) : Option (List String) :=
  (m.find? (fun kv => kv.1 == k)).map (fun kv => kv.2)

/-- `HashMap::insert`: replace any previous binding of the key. -/
def insertMap (m : List (String × List String)) (k : String) (v : List String) :
    List (String × List String) :=
  (m.filter (fun kv => kv.1 != k)) ++ [(k, v)]

/-- `HashMap::remove`: drop the binding of the key. -/
def eraseMap (m : List (String × List String)) (k : String) :
    List (String × List String) :=
  m.filter (fun kv => kv.1 != k)

/-- Modelled from the spec: `Fin::install` calls `plugins.diff(&self.lock_file.plugins)`
(core.rs line 75) but no `diff` method on `Vec<Plugin>` is defined under
src/ (lock.rs only defines `diff_mut` on `HashSet<Plugin>`). §4.3 of the
spec: with `force` false the reconciler computes desired − installed as
a set difference under the identity equality of §3, keeping order; that
identity equality is `PartialEq for Plugin` (`pluginEq`). -/
def diffSpec (desired : List Plugin) (installed : List Plugin) : List Plugin :=
  desired.filter (fun p => !(installed.any (fun q => pluginEq p q)))

/-- The mutable fields of `struct Fin` (core.rs lines 14-21) that the
operations touch: the in-memory installed-name set, the session
name-to-installed-files map, and the in-memory lock file. The path
fields are irrelevant to the modelled behavior. -/
structure FinState where
  installed_plugins : List String
  plugin_files : List (String × List String)
  lock_file : LockFile
deriving DecidableEq, Repr

/-- Oracles for the effectful steps of installation:
`fetchOk p` is whether `fetch_plugin` (core.rs lines 108-119, local copy
or `download_repo`) succeeds for `p`; `installResult name` is the
outcome of `install_plugin_files` (core.rs lines 165-188) — `none` for
a filesystem error while copying, `some files` for success with `files`
the destination paths written. -/
structure InstallEnv where
  fetchOk : Plugin → Bool
  installResult : String → Option (List String)

/-- Result of the sequential loop over fetch results in `Fin::install`
(core.rs lines 89-100): whether it ran to completion (`ok = false` when
`install_plugin_files(...)?` aborted it), the state reached, and the
names printed as `Installed:`. -/
structure LoopOut where
  ok : Bool
  state : FinState
  reported : List String
deriving Repr

/-- The loop body of `Fin::install` (core.rs lines 89-100). `plugins` is
the full parsed vector, `i` the running index into `results`: on a
successful fetch the code installs the files, inserts the fetched name
into `installed_plugins`, and pushes `plugins.get(i)` — the i-th element
of the **pre-diff** vector — onto `lock_file.plugins`; a fetch error is
only printed; an `install_plugin_files` error aborts via `?`. -/
def installLoop (env : InstallEnv) (plugins : List Plugin) :
    Nat → FinState → List (Option String) → LoopOut
  | _, st, [] => { ok := true, state := st, reported := [] }
  | i, st, none :: rest => installLoop env plugins (i + 1) st rest
  | i, st, some name :: rest =>
    match env.installResult name with
    | none => { ok := false, state := st, reported := [] }
    | some files =>
      let st' : FinState :=
        { installed_plugins := insertSet st.installed_plugins name,
          plugin_files := insertMap st.plugin_files name files,
          lock_file := { st.lock_file with
            plugins := st.lock_file.plugins ++ [plugins.getD i Plugin.defaultVal] } }
      let r := installLoop env plugins (i + 1) st' rest
      { r with reported := name :: r.reported }

/-- Observable outcome of `Fin::install` (core.rs lines 73-105). -/
structure InstallResult where
  ok : Bool
  state : FinState
  fetched : List Plugin
  saved : Bool
  installedReported : List String
  nothingToDo : Bool
deriving Repr

/-- `Fin::install` (core.rs lines 73-105): parse all specs (a parse
error fails the operation before any fetch), diff the parsed plugins
against the lock file, return early printing "All plugins are already
installed" when the diff is empty, otherwise fetch every plugin of the
diff (collecting per-plugin results, a failure does not stop the
others), run the sequential install loop, and save the lock file —
reached only when the loop did not abort. `fetched` records the plugins
whose fetch was attempted. -/
def FinState.install (env : InstallEnv) (st : FinState) (pluginStrs : List String) :
    InstallResult :=
  match parse_plugin pluginStrs with
  | none =>
    { ok := false, state := st, fetched := [], saved := false,
      installedReported := [], nothingToDo := false }
  | some plugins =>
    let plugins_to_install := diffSpec plugins st.lock_file.plugins
    if plugins_to_install.isEmpty then
      { ok := true, state := st, fetched := [], saved := false,
        installedReported := [], nothingToDo := true }
    else
      let results := plugins_to_install.map
        (fun p => if env.fetchOk p then some p.name else none)
      let out := installLoop env plugins 0 st results
      { ok := out.ok, state := out.state, fetched := plugins_to_install,
        saved := out.ok, installedReported := out.reported, nothingToDo := false }

/-- Observable outcome of `Fin::remove` (core.rs lines 191-217): the
state reached, the files still existing, the `Removed:` count, the
names reported `Plugin not installed:`, and whether the lock file was
persisted (the save call at core.rs line 214 is commented out and
`remove` never calls `lock_file.save`, so this is always `false`). -/
structure RemoveResult where
  state : FinState
  fs : List String
  removedCount : Nat
  notInstalledReported : List String
  savedLock : Bool
deriving DecidableEq, Repr

/-- The loop of `Fin::remove` (core.rs lines 194-212): for each name in
`installed_plugins`, delete every existing file recorded for it in the
session `plugin_files` map, then drop the name from the set and the
map; other names are reported as not installed. `fs` is the set of
existing files. -/
def removeLoop : FinState → List String → List String → RemoveResult
  | st, fs, [] =>
    { state := st, fs := fs, removedCount := 0,
      notInstalledReported := [], savedLock := false }
  | st, fs, name :: rest =>
    if st.installed_plugins.contains name then
      let fs' := match lookupMap st.plugin_files name with
        | some files => fs.filter (fun f => !(files.contains f))
        | none => fs
      let st' : FinState :=
        { installed_plugins := eraseSet st.installed_plugins name,
          plugin_files := eraseMap st.plugin_files name,
          lock_file := st.lock_file }
      let r := removeLoop st' fs' rest
      { r with removedCount := r.removedCount + 1 }
    else
      let r := removeLoop st fs rest
      { r with notInstalledReported := name :: r.notInstalledReported }

/-- `Fin::remove` (core.rs lines 191-217). -/
def FinState.remove (st : FinState) (fs : List String) (names : List String) :
    RemoveResult :=
  removeLoop st fs names

/-- Observable outcome of `Fin::update` (core.rs lines 220-244). -/
structure UpdateResult where
  state : FinState
  fs : List String
  fetched : List Plugin
  saved : Bool
  ok : Bool
  noOp : Bool
deriving Repr

/-- `Fin::update` (core.rs lines 220-244): the update set is every
installed name when no names are given, otherwise the given names
filtered to the installed ones; when it is empty print "No plugins to
update" and stop; otherwise `remove` the update set and then `install`
it (the names, re-parsed as specs, are diffed against the lock file,
which `remove` left untouched). -/
def FinState.update (env : InstallEnv) (st : FinState) (fs : List String)
    (names : List String) : UpdateResult :=
  let plugins_to_update :=
    if names.isEmpty then st.installed_plugins
    else names.filter (fun n => st.installed_plugins.contains n)
  if plugins_to_update.isEmpty then
    { state := st, fs := fs, fetched := [], saved := false, ok := true, noOp := true }
  else
    let rr := FinState.remove st fs plugins_to_update
    let ir := FinState.install env rr.state plugins_to_update
    { state := ir.state, fs := rr.fs, fetched := ir.fetched,
      saved := ir.saved, ok := ir.ok, noOp := false }

/-! ## Helper lemmas -/

lemma splitChars_ne_nil (sep : Char) (cs : List Char) : splitChars sep cs ≠ [] := by
  induction cs with
  | nil => simp [splitChars]
  | cons c cs ih =>
    by_cases h : c = sep
    · simp [splitChars, h]
    · simp only [splitChars, if_neg h]
      cases hs : splitChars sep cs with
      | nil => simp
      | cons g gs => simp

lemma rsSplit_ne_nil (sep : Char) (s : String) : rsSplit sep s ≠ [] := by
  simp only [rsSplit, ne_eq, List.map_eq_nil_iff]
  exact splitChars_ne_nil sep s.data

/-- The spec-string parser of core.rs never fails: `str::split` always
yields at least one item, so `.last()` is never `None`. -/
lemma parsePluginOne_total (s : String) : ∃ p, parsePluginOne s = some p := by
  cases h1 : rsSplit '@' s with
  | nil => exact absurd h1 (rsSplit_ne_nil _ _)
  | cons repo rest =>
    cases h2 : (rsSplit '/' repo).getLast? with
    | none =>
      exact absurd (List.getLast?_eq_none_iff.mp h2) (rsSplit_ne_nil _ _)
    | some nm =>
      cases rest with
      | nil =>
        refine ⟨{ name := nm,
                  source := "https://github.com/" ++ repo ++ "/archive/" ++ "HEAD" ++ ".tar.gz",
                  commit_hash := none, branch := none,
                  installed_files := none, checksum := none }, ?_⟩
        simp [parsePluginOne, h1, h2]
      | cons r rs =>
        refine ⟨{ name := nm,
                  source := "https://github.com/" ++ repo ++ "/archive/" ++ r ++ ".tar.gz",
                  commit_hash := none, branch := none,
                  installed_files := none, checksum := none }, ?_⟩
        simp [parsePluginOne, h1, h2]

lemma parse_plugin_total (names : List String) :
    ∃ ps, parse_plugin names = some ps ∧
      ∀ p ∈ ps, ∃ n ∈ names, parsePluginOne n = some p := by
  induction names with
  | nil => exact ⟨[], rfl, by simp⟩
  | cons n rest ih =>
    obtain ⟨p, hp⟩ := parsePluginOne_total n
    obtain ⟨ps, hps, hmem⟩ := ih
    refine ⟨p :: ps, by simp [parse_plugin, hp, hps], ?_⟩
    intro q hq
    rcases List.mem_cons.mp hq with h | h
    · exact ⟨n, List.mem_cons_self n rest, h ▸ hp⟩
    · obtain ⟨m, hm, hqm⟩ := hmem q h
      exact ⟨m, List.mem_cons_of_mem _ hm, hqm⟩

lemma contains_of_contains_filter (s : List String) (f : String → Bool) (n : String)
    (h : (s.filter f).contains n = true) : s.contains n = true := by
  simp only [List.contains_eq_any_beq, List.any_eq_true, beq_iff_eq] at h ⊢
  obtain ⟨x, hx, he⟩ := h
  exact ⟨x, List.mem_of_mem_filter hx, he⟩

lemma contains_filter_of_ne (s : List String) (m n : String) (hnm : n ≠ m)
    (h : s.contains n = true) : (s.filter (fun y => y != m)).contains n = true := by
  simp only [List.contains_eq_any_beq, List.any_eq_true, beq_iff_eq] at h ⊢
  obtain ⟨x, hx, he⟩ := h
  subst he
  exact ⟨n, List.mem_filter.mpr ⟨hx, by simp [hnm]⟩, rfl⟩

lemma contains_eraseSet_self (s : List String) (x : String) :
    (eraseSet s x).contains x = false := by
  simp only [eraseSet, List.contains_eq_any_beq, List.any_eq_false, beq_iff_eq]
  intro y hy
  simp only [List.mem_filter, bne_iff_ne, ne_eq] at hy
  exact fun he => hy.2 (he ▸ rfl)

lemma lookupMap_eraseMap_self (mp : List (String × List String)) (k : String) :
    lookupMap (eraseMap mp k) k = none := by
  simp only [lookupMap, eraseMap, Option.map_eq_none', List.find?_eq_none,
    beq_iff_eq]
  intro kv hkv
  simp only [List.mem_filter, bne_iff_ne, ne_eq] at hkv
  exact hkv.2

lemma find?_filter_of_imp (l : List (String × List String))
    (p q : String × List String → Bool)
    (himp : ∀ kv, p kv = true → q kv = true) :
    (l.filter q).find? p = l.find? p := by
  induction l with
  | nil => rfl
  | cons kv rest ih =>
    by_cases hp : p kv = true
    · rw [List.filter_cons, if_pos (himp kv hp), List.find?_cons_of_pos _ hp,
        List.find?_cons_of_pos _ hp]
    · rw [List.find?_cons_of_neg _ hp]
      by_cases hq : q kv = true
      · rw [List.filter_cons, if_pos hq, List.find?_cons_of_neg _ hp, ih]
      · rw [List.filter_cons, if_neg hq, ih]

lemma lookupMap_eraseMap_ne (mp : List (String × List String)) (k n : String)
    (hnk : n ≠ k) : lookupMap (eraseMap mp k) n = lookupMap mp n := by
  simp only [lookupMap, eraseMap]
  rw [find?_filter_of_imp]
  intro kv hp
  have hkv : kv.1 = n := by simpa using hp
  simp [hkv, hnk]

lemma lookupMap_filter_none (mp : List (String × List String))
    (g : String × List String → Bool) (n : String)
    (h : lookupMap mp n = none) : lookupMap (mp.filter g) n = none := by
  simp only [lookupMap, Option.map_eq_none', List.find?_eq_none] at h ⊢
  intro kv hkv
  exact h kv (List.mem_of_mem_filter hkv)

/-- `Fin::remove` never calls `lock_file.save` (the `save_plugins` call
at core.rs line 214 is commented out) and never touches `lock_file`. -/
lemma removeLoop_lock_saved (st : FinState) (fs names : List String) :
    (removeLoop st fs names).state.lock_file = st.lock_file ∧
    (removeLoop st fs names).savedLock = false := by
  induction names generalizing st fs with
  | nil => exact ⟨rfl, rfl⟩
  | cons m rest ih =>
    by_cases hc : st.installed_plugins.contains m
    · cases hl : lookupMap st.plugin_files m with
      | some files =>
        simp only [removeLoop, hc, if_true, hl]
        exact ih _ _
      | none =>
        simp only [removeLoop, hc, if_true, hl]
        exact ih _ _
    · simp only [removeLoop, hc, Bool.false_eq_true, if_false]
      exact ih _ _

/-- The remove loop only ever shrinks the set of existing files. -/
lemma removeLoop_fs_subset (st : FinState) (fs names : List String) (f : String)
    (h : f ∈ (removeLoop st fs names).fs) : f ∈ fs := by
  induction names generalizing st fs with
  | nil => exact h
  | cons m rest ih =>
    by_cases hc : st.installed_plugins.contains m
    · cases hl : lookupMap st.plugin_files m with
      | some files =>
        simp only [removeLoop, hc, if_true, hl] at h
        exact List.mem_of_mem_filter (ih _ _ h)
      | none =>
        simp only [removeLoop, hc, if_true, hl] at h
        exact ih _ _ h
    · simp only [removeLoop, hc, Bool.false_eq_true, if_false] at h
      exact ih _ _ h

/-- The remove loop only ever shrinks the installed-name set. -/
lemma removeLoop_contains_mono (st : FinState) (fs names : List String) (n : String)
    (h : (removeLoop st fs names).state.installed_plugins.contains n = true) :
    st.installed_plugins.contains n = true := by
  induction names generalizing st fs with
  | nil => exact h
  | cons m rest ih =>
    by_cases hc : st.installed_plugins.contains m
    · cases hl : lookupMap st.plugin_files m with
      | some files =>
        simp only [removeLoop, hc, if_true, hl] at h
        exact contains_of_contains_filter _ _ _ (ih _ _ h)
      | none =>
        simp only [removeLoop, hc, if_true, hl] at h
        exact contains_of_contains_filter _ _ _ (ih _ _ h)
    · simp only [removeLoop, hc, Bool.false_eq_true, if_false] at h
      exact ih _ _ h

/-- A name absent from the installed set stays absent during the remove
loop. -/
lemma removeLoop_contains_preserve_false (st : FinState) (fs names : List String)
    (n : String) (h : st.installed_plugins.contains n = false) :
    (removeLoop st fs names).state.installed_plugins.contains n = false := by
  cases hfin : (removeLoop st fs names).state.installed_plugins.contains n with
  | false => rfl
  | true =>
    have hmono := removeLoop_contains_mono _ _ _ _ hfin
    rw [h] at hmono
    exact absurd hmono (by decide)

/-- After the remove loop, no processed name is still in the installed
set. -/
lemma removeLoop_contains_final (st : FinState) (fs names : List String) (n : String)
    (hn : n ∈ names) :
    (removeLoop st fs names).state.installed_plugins.contains n = false := by
  induction names generalizing st fs with
  | nil => cases hn
  | cons m rest ih =>
    by_cases hnm : n = m
    · subst hnm
      by_cases hc : st.installed_plugins.contains n
      · cases hl : lookupMap st.plugin_files n with
        | some files =>
          simp only [removeLoop, hc, if_true, hl]
          exact removeLoop_contains_preserve_false _ _ _ _ (contains_eraseSet_self _ _)
        | none =>
          simp only [removeLoop, hc, if_true, hl]
          exact removeLoop_contains_preserve_false _ _ _ _ (contains_eraseSet_self _ _)
      · simp only [removeLoop, hc, Bool.false_eq_true, if_false]
        exact removeLoop_contains_preserve_false _ _ _ _
          (Bool.not_eq_true _ ▸ hc)
    · have hr : n ∈ rest := by
        rcases List.mem_cons.mp hn with h | h
        · exact absurd h hnm
        · exact h
      by_cases hc : st.installed_plugins.contains m
      · cases hl : lookupMap st.plugin_files m with
        | some files =>
          simp only [removeLoop, hc, if_true, hl]
          exact ih _ _ hr
        | none =>
          simp only [removeLoop, hc, if_true, hl]
          exact ih _ _ hr
      · simp only [removeLoop, hc, Bool.false_eq_true, if_false]
        exact ih _ _ hr

/-- A name with no binding in the session file map never regains one
during the remove loop. -/
lemma removeLoop_map_preserve_none (st : FinState) (fs names : List String)
    (n : String) (h : lookupMap st.plugin_files n = none) :
    lookupMap (removeLoop st fs names).state.plugin_files n = none := by
  induction names generalizing st fs with
  | nil => exact h
  | cons m rest ih =>
    by_cases hc : st.installed_plugins.contains m
    · cases hl : lookupMap st.plugin_files m with
      | some files =>
        simp only [removeLoop, hc, if_true, hl]
        exact ih _ _ (lookupMap_filter_none _ _ _ h)
      | none =>
        simp only [removeLoop, hc, if_true, hl]
        exact ih _ _ (lookupMap_filter_none _ _ _ h)
    · simp only [removeLoop, hc, Bool.false_eq_true, if_false]
      exact ih _ _ h

/-- After the remove loop, a name that was installed at entry has no
binding left in the session file map. -/
lemma removeLoop_map_final (st : FinState) (fs names : List String) (n : String)
    (hn : n ∈ names) (hc0 : st.installed_plugins.contains n = true) :
    lookupMap (removeLoop st fs names).state.plugin_files n = none := by
  induction names generalizing st fs with
  | nil => cases hn
  | cons m rest ih =>
    by_cases hnm : n = m
    · subst hnm
      cases hl : lookupMap st.plugin_files n with
      | some files =>
        simp only [removeLoop, hc0, if_true, hl]
        exact removeLoop_map_preserve_none _ _ _ _ (lookupMap_eraseMap_self _ _)
      | none =>
        simp only [removeLoop, hc0, if_true, hl]
        exact removeLoop_map_preserve_none _ _ _ _ (lookupMap_eraseMap_self _ _)
    · have hr : n ∈ rest := by
        rcases List.mem_cons.mp hn with h | h
        · exact absurd h hnm
        · exact h
      by_cases hc : st.installed_plugins.contains m
      · cases hl : lookupMap st.plugin_files m with
        | some files =>
          simp only [removeLoop, hc, if_true, hl]
          refine ih _ _ hr ?_
          exact contains_filter_of_ne _ _ _ hnm hc0
        | none =>
          simp only [removeLoop, hc, if_true, hl]
          refine ih _ _ hr ?_
          exact contains_filter_of_ne _ _ _ hnm hc0
      · simp only [removeLoop, hc, Bool.false_eq_true, if_false]
        exact ih _ _ hr hc0

lemma contains_filter_preserve_false (s : List String) (g : String → Bool)
    (n : String) (h : s.contains n = false) :
    (s.filter g).contains n = false := by
  cases hc : (s.filter g).contains n with
  | false => rfl
  | true =>
    have hmono := contains_of_contains_filter _ _ _ hc
    rw [h] at hmono
    exact absurd hmono (by decide)

/-- Every file recorded in the session map for a name that is installed
at entry to the remove loop is gone from the filesystem afterwards. -/
lemma removeLoop_files_deleted :
    ∀ (names : List String) (st : FinState) (fs : List String)
      (n : String) (files : List String) (f : String),
    n ∈ names → st.installed_plugins.contains n = true →
    lookupMap st.plugin_files n = some files → f ∈ files →
    f ∉ (removeLoop st fs names).fs := by
  intro names
  induction names with
  | nil => intro st fs n files f hn _ _ _; cases hn
  | cons m rest ih =>
    intro st fs n files f hn hc0 hl hf
    by_cases hnm : n = m
    · subst hnm
      simp only [removeLoop, hc0, if_true, hl]
      intro hmem
      have hfs := removeLoop_fs_subset _ _ _ _ hmem
      have hkeep := (List.mem_filter.mp hfs).2
      have hcf : files.contains f = true := by
        simp only [List.contains_eq_any_beq, List.any_eq_true, beq_iff_eq]
        exact ⟨f, hf, rfl⟩
      rw [hcf] at hkeep
      exact absurd hkeep (by decide)
    · have hr : n ∈ rest := by
        rcases List.mem_cons.mp hn with h | h
        · exact absurd h hnm
        · exact h
      by_cases hc : st.installed_plugins.contains m
      · cases hl' : lookupMap st.plugin_files m with
        | some files' =>
          simp only [removeLoop, hc, if_true, hl']
          exact ih _ _ _ _ _ hr (contains_filter_of_ne _ _ _ hnm hc0)
            (by rw [show lookupMap (eraseMap st.plugin_files m) n =
                lookupMap st.plugin_files n from lookupMap_eraseMap_ne _ _ _ hnm]
                exact hl) hf
        | none =>
          simp only [removeLoop, hc, if_true, hl']
          exact ih _ _ _ _ _ hr (contains_filter_of_ne _ _ _ hnm hc0)
            (by rw [show lookupMap (eraseMap st.plugin_files m) n =
                lookupMap st.plugin_files n from lookupMap_eraseMap_ne _ _ _ hnm]
                exact hl) hf
      · simp only [removeLoop, hc, Bool.false_eq_true, if_false]
        exact ih _ _ _ _ _ hr hc0 hl hf

/-- A requested name that is not in the installed set is reported as
"not installed". -/
lemma removeLoop_reported :
    ∀ (names : List String) (st : FinState) (fs : List String) (n : String),
    n ∈ names → st.installed_plugins.contains n = false →
    n ∈ (removeLoop st fs names).notInstalledReported := by
  intro names
  induction names with
  | nil => intro st fs n hn _; cases hn
  | cons m rest ih =>
    intro st fs n hn hc0
    by_cases hnm : n = m
    · subst hnm
      simp only [removeLoop, hc0, Bool.false_eq_true, if_false]
      exact List.mem_cons_self _ _
    · have hr : n ∈ rest := by
        rcases List.mem_cons.mp hn with h | h
        · exact absurd h hnm
        · exact h
      by_cases hc : st.installed_plugins.contains m
      · cases hl : lookupMap st.plugin_files m with
        | some files =>
          simp only [removeLoop, hc, if_true, hl]
          exact ih _ _ _ hr (contains_filter_preserve_false _ _ _ hc0)
        | none =>
          simp only [removeLoop, hc, if_true, hl]
          exact ih _ _ _ hr (contains_filter_preserve_false _ _ _ hc0)
      · simp only [removeLoop, hc, Bool.false_eq_true, if_false]
        exact List.mem_cons_of_mem _ (ih _ _ _ hr hc0)

/-! ## Claims about the parser -/

/-- C6: parsing `"owner/repo"` and parsing `"owner/repo@HEAD"` yield the
same plugin identity, with name `"repo"` (the last path segment) and the
same archive source URL. -/
theorem C6_parse_identity_stable :
    parse_plugin ["owner/repo"] =
      some [{ name := "repo",
              source := "https://github.com/owner/repo/archive/HEAD.tar.gz",
              commit_hash := none, branch := none,
              installed_files := none, checksum := none }] ∧
    parse_plugin ["owner/repo@HEAD"] = parse_plugin ["owner/repo"] := by
  decide

/-- C7: contrary to the claim, the parser accepts a spec whose part left
of the first `'@'` has no extractable trailing name component: on `""`
and on `"owner/"` it succeeds with a plugin whose name is the empty
string, because `str::split('/').last()` always yields an item; the
`.context("Repo Name invalid")` error path is unreachable. -/
theorem C7_parse_accepts_empty_name :
    parse_plugin [""] =
      some [{ name := "",
              source := "https://github.com//archive/HEAD.tar.gz",
              commit_hash := none, branch := none,
              installed_files := none, checksum := none }] ∧
    parse_plugin ["owner/"] =
      some [{ name := "",
              source := "https://github.com/owner//archive/HEAD.tar.gz",
              commit_hash := none, branch := none,
              installed_files := none, checksum := none }] := by
  decide

/-! ## Claims about the lock store -/

/-- C8: loading from a path with no file succeeds with a fresh empty
LockState (version "1.0", the current timestamp, no plugins); loading a
present but unparseable file fails with an error. -/
theorem C8_load_missing_fresh_unparseable_errors
    (parseToml : String → Option LockFile) (now : Nat) (content : String)
    (h : parseToml content = none) :
    LockFile.load parseToml now (.error .notFound) =
      .ok { version := "1.0", generated_at := now, plugins := [] } ∧
    LockFile.load parseToml now (.ok content) = .error () := by
  exact ⟨rfl, by simp [LockFile.load, h]⟩

theorem C8_witness :
    LockFile.load (fun _ => none) 7 (.error .notFound) =
      .ok { version := "1.0", generated_at := 7, plugins := [] } ∧
    LockFile.load (fun _ => none) 7 (.ok "not toml") = .error () :=
  C8_load_missing_fresh_unparseable_errors (fun _ => none) 7 "not toml" rfl

/-- C10: `LockFile::load` returns the fresh default state for any read
failure, unreadable files included, and an error is only ever raised
for content that was read successfully but failed to parse. -/
theorem C10_load_error_only_on_parse_failure
    (parseToml : String → Option LockFile) (now : Nat) (e : ReadErr)
    (r : Except ReadErr String)
    (h : LockFile.load parseToml now r = .error ()) :
    LockFile.load parseToml now (.error e) = .ok (freshLock now) ∧
    ∃ content, r = .ok content ∧ parseToml content = none := by
  refine ⟨rfl, ?_⟩
  match r with
  | .error e' => simp [LockFile.load] at h
  | .ok c =>
    cases hc : parseToml c with
    | some l => simp [LockFile.load, hc] at h
    | none => exact ⟨c, rfl, hc⟩

theorem C10_witness :
    LockFile.load (fun _ => none) 3 (.error .permissionDenied) = .ok (freshLock 3) ∧
    ∃ content, (Except.ok "x" : Except ReadErr String) = .ok content ∧
      (fun (_ : String) => (none : Option LockFile)) content = none :=
  C10_load_error_only_on_parse_failure (fun _ => none) 3 .permissionDenied
    (.ok "x") rfl

/-! ## Claim about plugin identity -/

/-- C9: Plugin equality holds exactly when `name` and `commit_hash`
agree — the other fields are irrelevant — and the input fed to the
hasher is the name alone, so equal plugins hash equally. -/
theorem C9_plugin_identity (a b : Plugin) :
    (pluginEq a b = true ↔ a.name = b.name ∧ a.commit_hash = b.commit_hash) ∧
    (pluginEq a b = true → pluginHashKey a = pluginHashKey b) := by
  constructor
  · simp [pluginEq]
  · intro h
    simp only [pluginEq, Bool.and_eq_true, beq_iff_eq] at h
    simp [pluginHashKey, h.1]

/-- Two records agreeing on `name` and `commit_hash` but differing in
`source`, `branch`, `installed_files` and `checksum`. -/
def pw1 : Plugin :=
  { name := "x", source := "s1", commit_hash := some "c", branch := none,
    installed_files := none, checksum := none }

def pw2 : Plugin :=
  { name := "x", source := "s2", commit_hash := some "c", branch := some "main",
    installed_files := some ["f"], checksum := some "sum" }

theorem C9_witness :
    pluginEq pw1 pw2 = true ∧ pluginHashKey pw1 = pluginHashKey pw2 := by
  have h := C9_plugin_identity pw1 pw2
  have he : pluginEq pw1 pw2 = true := h.1.mpr ⟨rfl, rfl⟩
  exact ⟨he, h.2 he⟩

/-! ## Claims about Remove -/

/-- A lock-file record for plugin `a` whose `installed_files` lists the
path `"A"`. -/
def lockA : Plugin :=
  { name := "a", source := "https://github.com/o/a/archive/HEAD.tar.gz",
    commit_hash := none, branch := none, installed_files := some ["A"],
    checksum := none }

/-- Fresh-process state with `a` installed per the lock file: the
installed-name set is loaded from the lock records, while the session
`plugin_files` map starts empty (`Fin::new`, core.rs lines 39-46). -/
def stRem : FinState :=
  { installed_plugins := ["a"], plugin_files := [],
    lock_file := { version := "1.0", generated_at := 0, plugins := [lockA] } }

/-- C2 counterexample: removing `"a"`, whose LockState record lists the
installed file `"A"`, counts it as removed but does not delete `"A"`
(removal reads the empty session map, not the record's
`installed_files`), does not drop the record from LockState, and never
persists LockState. -/
theorem C2_counterexample :
    (FinState.remove stRem ["A"] ["a"]).removedCount = 1 ∧
    (FinState.remove stRem ["A"] ["a"]).fs = ["A"] ∧
    (FinState.remove stRem ["A"] ["a"]).state.lock_file.plugins = [lockA] ∧
    (FinState.remove stRem ["A"] ["a"]).savedLock = false := by
  decide

/-- C2 (amended): for each requested name found in the in-memory
installed set, Remove deletes the paths recorded for it in the
**session** `plugin_files` map (not the LockState record's
`installed_files`) and drops the name from the in-memory set and map;
a name not in the set is reported as not installed; LockState itself is
never modified and never persisted. -/
theorem C2_remove_uses_session_state_only (st : FinState) (fs names : List String)
    (n : String) (hn : n ∈ names) :
    (FinState.remove st fs names).savedLock = false ∧
    (FinState.remove st fs names).state.lock_file = st.lock_file ∧
    (FinState.remove st fs names).state.installed_plugins.contains n = false ∧
    (st.installed_plugins.contains n = true →
      lookupMap (FinState.remove st fs names).state.plugin_files n = none ∧
      ∀ files, lookupMap st.plugin_files n = some files →
        ∀ f ∈ files, f ∉ (FinState.remove st fs names).fs) ∧
    (st.installed_plugins.contains n = false →
      n ∈ (FinState.remove st fs names).notInstalledReported) := by
  refine ⟨(removeLoop_lock_saved st fs names).2,
    (removeLoop_lock_saved st fs names).1,
    removeLoop_contains_final st fs names n hn, ?_, ?_⟩
  · intro hc0
    exact ⟨removeLoop_map_final st fs names n hn hc0,
      fun files hl f hf => removeLoop_files_deleted names st fs n files f hn hc0 hl hf⟩
  · intro hc0
    exact removeLoop_reported names st fs n hn hc0

/-- State in which `a` was installed during this session, so the session
map knows its file `"A"`. -/
def stRemW : FinState :=
  { installed_plugins := ["a"], plugin_files := [("a", ["A"])],
    lock_file := { version := "1.0", generated_at := 0, plugins := [lockA] } }

theorem C2_witness :
    (FinState.remove stRemW ["A", "B"] ["a", "x"]).savedLock = false ∧
    (FinState.remove stRemW ["A", "B"] ["a", "x"]).state.lock_file = stRemW.lock_file ∧
    (FinState.remove stRemW ["A", "B"] ["a", "x"]).state.installed_plugins.contains "a" = false ∧
    lookupMap (FinState.remove stRemW ["A", "B"] ["a", "x"]).state.plugin_files "a" = none ∧
    "A" ∉ (FinState.remove stRemW ["A", "B"] ["a", "x"]).fs ∧
    "x" ∈ (FinState.remove stRemW ["A", "B"] ["a", "x"]).notInstalledReported := by
  have h := C2_remove_uses_session_state_only stRemW ["A", "B"] ["a", "x"] "a" (by decide)
  have hx := C2_remove_uses_session_state_only stRemW ["A", "B"] ["a", "x"] "x" (by decide)
  refine ⟨h.1, h.2.1, h.2.2.1, (h.2.2.2.1 (by decide)).1, ?_, hx.2.2.2.2 (by decide)⟩
  exact (h.2.2.2.1 (by decide)).2 ["A"] (by decide) "A" (by decide)

/-! ## Install-loop lemmas -/

/-- If any successfully fetched name's file-copy fails, the install loop
aborts: the `?` at core.rs line 92 propagates the error. -/
lemma installLoop_abort :
    ∀ (results : List (Option String)) (env : InstallEnv) (plugins : List Plugin)
      (i : Nat) (st : FinState) (nm : String),
    (some nm) ∈ results → env.installResult nm = none →
    (installLoop env plugins i st results).ok = false := by
  intro results
  induction results with
  | nil => intro env plugins i st nm hm _; cases hm
  | cons r rest ih =>
    intro env plugins i st nm hm hf
    cases r with
    | none =>
      have hr : (some nm) ∈ rest := by
        rcases List.mem_cons.mp hm with h | h
        · cases h
        · exact h
      simp only [installLoop]
      exact ih env plugins (i + 1) st nm hr hf
    | some name =>
      by_cases hname : nm = name
      · subst hname
        simp [installLoop, hf]
      · have hr : (some nm) ∈ rest := by
          rcases List.mem_cons.mp hm with h | h
          · exact absurd (Option.some.inj h) hname
          · exact h
        cases hres : env.installResult name with
        | none => simp [installLoop, hres]
        | some files =>
          simp only [installLoop, hres]
          exact ih env plugins (i + 1) _ nm hr hf

/-- A name whose file-copy fails is never printed as `Installed:`. -/
lemma installLoop_reported :
    ∀ (results : List (Option String)) (env : InstallEnv) (plugins : List Plugin)
      (i : Nat) (st : FinState) (nm : String),
    env.installResult nm = none →
    nm ∉ (installLoop env plugins i st results).reported := by
  intro results
  induction results with
  | nil => intro env plugins i st nm _; simp [installLoop]
  | cons r rest ih =>
    intro env plugins i st nm hf
    cases r with
    | none =>
      simp only [installLoop]
      exact ih env plugins _ _ nm hf
    | some name =>
      cases hres : env.installResult name with
      | none => simp [installLoop, hres]
      | some files =>
        simp only [installLoop, hres]
        intro hmem
        rcases List.mem_cons.mp hmem with h | h
        · subst h
          rw [hf] at hres
          cases hres
        · exact ih env plugins _ _ nm hf h

/-! ## Claims about Install -/

/-- Parsed plugin of the spec `"o/a"`. -/
def pa : Plugin :=
  { name := "a", source := "https://github.com/o/a/archive/HEAD.tar.gz",
    commit_hash := none, branch := none, installed_files := none, checksum := none }

/-- Parsed plugin of the spec `"o/b"`. -/
def pb : Plugin :=
  { name := "b", source := "https://github.com/o/b/archive/HEAD.tar.gz",
    commit_hash := none, branch := none, installed_files := none, checksum := none }

/-- Parsed plugin of the spec `"o/c"`. -/
def pc : Plugin :=
  { name := "c", source := "https://github.com/o/c/archive/HEAD.tar.gz",
    commit_hash := none, branch := none, installed_files := none, checksum := none }

/-- Empty fresh state: nothing installed, empty lock. -/
def stEmpty : FinState :=
  { installed_plugins := [], plugin_files := [],
    lock_file := { version := "1.0", generated_at := 0, plugins := [] } }

/-- Fetches always succeed; the file copy fails exactly for plugin
name `"a"`. -/
def envCopyFail : InstallEnv :=
  { fetchOk := fun _ => true,
    installResult := fun n => if n == "a" then none else some ["fb"] }

/-- C3 counterexample: in the batch `["o/a", "o/b"]` the file-copy of
`a` fails; contrary to the claim this is not isolated — the whole
operation fails, `b` is neither installed nor recorded, and the lock
file is not saved. -/
theorem C3_counterexample :
    (FinState.install envCopyFail stEmpty ["o/a", "o/b"]).ok = false ∧
    (FinState.install envCopyFail stEmpty ["o/a", "o/b"]).saved = false ∧
    (FinState.install envCopyFail stEmpty ["o/a", "o/b"]).installedReported = [] ∧
    (FinState.install envCopyFail stEmpty ["o/a", "o/b"]).state.installed_plugins.contains "b"
      = false := by
  decide

/-- C3 (amended): a file-copy failure during install is **not** treated
like a fetch failure: `install_plugin_files(...)?` propagates it, the
overall operation fails, the lock file is not persisted, and the
failing plugin is never reported as installed (plugins after it in the
loop are abandoned). Only fetch failures are isolated per-plugin. -/
theorem C3_install_copy_failure_aborts (env : InstallEnv) (st : FinState)
    (strs : List String) (plugins : List Plugin) (p : Plugin)
    (hparse : parse_plugin strs = some plugins)
    (hp : p ∈ diffSpec plugins st.lock_file.plugins)
    (hfetch : env.fetchOk p = true)
    (hfail : env.installResult p.name = none) :
    (FinState.install env st strs).ok = false ∧
    (FinState.install env st strs).saved = false ∧
    p.name ∉ (FinState.install env st strs).installedReported := by
  have hne : (diffSpec plugins st.lock_file.plugins).isEmpty = false := by
    cases hd : diffSpec plugins st.lock_file.plugins with
    | nil => rw [hd] at hp; cases hp
    | cons a l => rfl
  have hmem : (some p.name) ∈ (diffSpec plugins st.lock_file.plugins).map
      (fun q => if env.fetchOk q then some q.name else none) := by
    refine List.mem_map.mpr ⟨p, hp, ?_⟩
    rw [hfetch]
    simp
  have hok := installLoop_abort _ env plugins 0 st p.name hmem hfail
  have hrep := installLoop_reported
    ((diffSpec plugins st.lock_file.plugins).map
      (fun q => if env.fetchOk q then some q.name else none))
    env plugins 0 st p.name hfail
  simp only [FinState.install, hparse, hne, Bool.false_eq_true, if_false]
  exact ⟨hok, hok, hrep⟩

theorem C3_witness :
    (FinState.install envCopyFail stEmpty ["o/a", "o/b"]).ok = false ∧
    (FinState.install envCopyFail stEmpty ["o/a", "o/b"]).saved = false ∧
    pa.name ∉ (FinState.install envCopyFail stEmpty ["o/a", "o/b"]).installedReported :=
  C3_install_copy_failure_aborts envCopyFail stEmpty ["o/a", "o/b"] [pa, pb] pa
    (by decide) (by decide) (by decide) (by decide)

/-- State with `a` already locked (and therefore in the installed-name
set), as after a previous `install ["o/a"]` run. -/
def stC4 : FinState :=
  { installed_plugins := ["a"], plugin_files := [],
    lock_file := { version := "1.0", generated_at := 0, plugins := [pa] } }

/-- Fetch fails exactly for plugin `b`; every file copy succeeds. -/
def envC4 : InstallEnv :=
  { fetchOk := fun p => p.name != "b", installResult := fun _ => some [] }

/-- C4: in the batch `["o/a", "o/b", "o/c"]` with `a` already locked,
`b` failing to fetch and `c` fetching fine, the loop pushes
`plugins.get(i)` with `i` indexing the **post-diff** results, so the
record merged into LockState is `b` — the plugin whose fetch failed —
while `c`, reported as `Installed:`, is never recorded. -/
theorem C4_failed_plugin_recorded :
    (FinState.install envC4 stC4 ["o/a", "o/b", "o/c"]).installedReported = ["c"] ∧
    (FinState.install envC4 stC4 ["o/a", "o/b", "o/c"]).state.lock_file.plugins = [pa, pb] ∧
    ((FinState.install envC4 stC4 ["o/a", "o/b", "o/c"]).state.lock_file.plugins.any
      (fun q => q.name == "c")) = false ∧
    (FinState.install envC4 stC4 ["o/a", "o/b", "o/c"]).saved = true := by
  decide

/-- The reconciliation diff is empty when every desired plugin is
identity-equal to some locked plugin. -/
lemma diffSpec_eq_nil (ps lock : List Plugin)
    (h : ∀ p ∈ ps, ∃ q ∈ lock, pluginEq p q = true) :
    diffSpec ps lock = [] := by
  simp only [diffSpec, List.filter_eq_nil_iff]
  intro p hp
  obtain ⟨q, hq, he⟩ := h p hp
  simp only [Bool.not_eq_true', Bool.not_eq_false, List.any_eq_true]
  exact ⟨q, hq, he⟩

/-- When every spec in the batch parses to a plugin identity-equal to a
locked one, Install fetches nothing, changes nothing, reports "All
plugins are already installed", and succeeds without saving. -/
lemma install_nothing_to_do (env : InstallEnv) (st : FinState) (strs : List String)
    (h : ∀ n ∈ strs, ∀ p, parsePluginOne n = some p →
      ∃ q ∈ st.lock_file.plugins, pluginEq p q = true) :
    (FinState.install env st strs).fetched = [] ∧
    (FinState.install env st strs).nothingToDo = true ∧
    (FinState.install env st strs).state = st ∧
    (FinState.install env st strs).ok = true ∧
    (FinState.install env st strs).saved = false := by
  obtain ⟨ps, hps, hmem⟩ := parse_plugin_total strs
  have hdiff : diffSpec ps st.lock_file.plugins = [] := by
    apply diffSpec_eq_nil
    intro p hp
    obtain ⟨n, hn, hpn⟩ := hmem p hp
    exact h n hn p hpn
  simp [FinState.install, hps, hdiff]

/-- C5: installing a spec that parses to a plugin identity-equal
(same `name` and `commit_hash`) to one already in LockState performs
zero fetches, reports that there is nothing to do, and leaves the state
— LockState included — unchanged, without saving. -/
theorem C5_install_idempotent (env : InstallEnv) (st : FinState)
    (s : String) (p : Plugin)
    (hp : parsePluginOne s = some p)
    (hq : ∃ q ∈ st.lock_file.plugins, pluginEq p q = true) :
    (FinState.install env st [s]).fetched = [] ∧
    (FinState.install env st [s]).nothingToDo = true ∧
    (FinState.install env st [s]).state = st ∧
    (FinState.install env st [s]).ok = true ∧
    (FinState.install env st [s]).saved = false := by
  apply install_nothing_to_do
  intro n hn q hqn
  have hn' : n = s := by simpa using hn
  subst hn'
  rw [hp] at hqn
  obtain rfl := Option.some.inj hqn
  exact hq

/-- The plugin record produced by parsing `"owner/repo"`. -/
def pRepo : Plugin :=
  { name := "repo", source := "https://github.com/owner/repo/archive/HEAD.tar.gz",
    commit_hash := none, branch := none, installed_files := none, checksum := none }

/-- State with `repo` already locked, as left by `install ["owner/repo"]`. -/
def stRepo : FinState :=
  { installed_plugins := ["repo"], plugin_files := [],
    lock_file := { version := "1.0", generated_at := 0, plugins := [pRepo] } }

theorem C5_witness :
    (FinState.install envCopyFail stRepo ["owner/repo"]).fetched = [] ∧
    (FinState.install envCopyFail stRepo ["owner/repo"]).nothingToDo = true ∧
    (FinState.install envCopyFail stRepo ["owner/repo"]).state = stRepo ∧
    (FinState.install envCopyFail stRepo ["owner/repo"]).ok = true ∧
    (FinState.install envCopyFail stRepo ["owner/repo"]).saved = false :=
  C5_install_idempotent envCopyFail stRepo "owner/repo" pRepo (by decide)
    ⟨pRepo, by decide, by decide⟩

/-! ## Claims about Update -/

/-- Environment in which every fetch fails. -/
def envNoFetch : InstallEnv :=
  { fetchOk := fun _ => false, installResult := fun _ => none }

/-- State with `repo` locked and its file `"F"` recorded in the session
map, as after installing `"owner/repo"` earlier in this session. -/
def stUpd : FinState :=
  { installed_plugins := ["repo"], plugin_files := [("repo", ["F"])],
    lock_file := { version := "1.0", generated_at := 0, plugins := [pRepo] } }

/-- The plugin record produced by parsing the bare name `"repo"` (what
`update` passes back to `install`). -/
def pRepoSelf : Plugin :=
  { name := "repo", source := "https://github.com/repo/archive/HEAD.tar.gz",
    commit_hash := none, branch := none, installed_files := none, checksum := none }

/-- C1 counterexample: updating installed plugin `repo` first removes it
— its previously installed file `"F"` is deleted and it leaves the
in-memory installed set — and then attempts no fetch at all (the lock
record, which remove left in place, makes the reinstall diff empty), so
no new install of it ever succeeds: the prior installed-file list does
not remain valid and the plugin ends up uninstalled in memory. -/
theorem C1_counterexample :
    (FinState.update envNoFetch stUpd ["F"] ["repo"]).fs = [] ∧
    (FinState.update envNoFetch stUpd ["F"] ["repo"]).state.installed_plugins.contains "repo"
      = false ∧
    (FinState.update envNoFetch stUpd ["F"] ["repo"]).fetched = [] ∧
    (FinState.update envNoFetch stUpd ["F"] ["repo"]).saved = false := by
  decide

/-- C1 (amended): Update is remove-then-install, not reinstall-in-place:
for installed names whose parsed identity is still in LockState, update
removes them (dropping them from the in-memory installed set and
deleting their session-recorded files) and then the install step sees
an empty diff against the untouched LockState, so it performs zero
fetches and never re-adds them: after update the names are absent from
the installed set and nothing was persisted. -/
theorem C1_update_removes_then_reinstalls_nothing (env : InstallEnv)
    (st : FinState) (fs names : List String)
    (hne : names ≠ [])
    (hinst : ∀ n ∈ names, st.installed_plugins.contains n = true)
    (hlock : ∀ n ∈ names, ∀ p, parsePluginOne n = some p →
      ∃ q ∈ st.lock_file.plugins, pluginEq p q = true) :
    (FinState.update env st fs names).fetched = [] ∧
    (FinState.update env st fs names).saved = false ∧
    (FinState.update env st fs names).state.lock_file = st.lock_file ∧
    ∀ n ∈ names,
      (FinState.update env st fs names).state.installed_plugins.contains n = false := by
  have hnamesE : names.isEmpty = false := by
    cases names with
    | nil => exact absurd rfl hne
    | cons a l => rfl
  have hfilter : names.filter (fun n => st.installed_plugins.contains n) = names :=
    List.filter_eq_self.mpr hinst
  have hlockr : (FinState.remove st fs names).state.lock_file = st.lock_file :=
    (removeLoop_lock_saved st fs names).1
  have hnothing := install_nothing_to_do env (FinState.remove st fs names).state names
    (by rw [hlockr]; exact hlock)
  simp only [FinState.update, hnamesE, Bool.false_eq_true, if_false, hfilter]
  refine ⟨hnothing.1, hnothing.2.2.2.2, ?_, ?_⟩
  · rw [hnothing.2.2.1]
    exact hlockr
  · intro n hn
    rw [hnothing.2.2.1]
    exact removeLoop_contains_final st fs names n hn

theorem C1_witness :
    (FinState.update envNoFetch stUpd ["F"] ["repo"]).fetched = [] ∧
    (FinState.update envNoFetch stUpd ["F"] ["repo"]).saved = false ∧
    (FinState.update envNoFetch stUpd ["F"] ["repo"]).state.lock_file = stUpd.lock_file ∧
    (FinState.update envNoFetch stUpd ["F"] ["repo"]).state.installed_plugins.contains "repo"
      = false := by
  have h := C1_update_removes_then_reinstalls_nothing envNoFetch stUpd ["F"] ["repo"]
    (by decide) (by decide)
    (by
      intro n hn p hp
      have hn' : n = "repo" := by simpa using hn
      subst hn'
      have hps : parsePluginOne "repo" = some pRepoSelf := by decide
      rw [hps] at hp
      obtain rfl := Option.some.inj hp
      exact ⟨pRepo, by decide, by decide⟩)
  exact ⟨h.1, h.2.1, h.2.2.1, h.2.2.2 "repo" (by decide)⟩

end FinSpec
